import Mathlib

/-!
Verification of the sacc compiler's architecture-independent IR and its
x86_64 lowering engine, shallowly embedded from
`src/generator/high/mod.rs` and `src/generator/low/x86_64.rs`.

Rust panics (`unwrap`, `expect`, `unimplemented!`) are modelled as
`Except` errors: each panic site maps to a dedicated error constructor,
so a proposition "lowering fails" covers both `Err` returns and panics.
The iced-x86 `CodeAssembler` (an external crate) is modelled as the
sequence of assembler calls made by the engine (`AsmItem` trace); byte
encoding of that sequence is the external assembler's job and is outside
this development.
-/

namespace Sacc

/-- A high level unnamed register (`Register(NonZeroU16)` in the source).
The payload is the numeric id; the allocator only ever produces ids ≥ 1. -/
structure Register where
  val : Nat
deriving DecidableEq, Repr

/-- The size of an integer, either 1, 2, 4, or 8 bytes. -/
inductive IntegerSize where
  | B8
  | B16
  | B32
  | B64
deriving DecidableEq, Repr

/-- The possible sizes of a floating point value. -/
inductive FloatingSize where
  | F32
  | F64
deriving DecidableEq, Repr

/-- A complete primitive value. -/
inductive PrimitiveValue where
  | Signed (size : IntegerSize)
  | Unsigned (size : IntegerSize)
  | Floating (size : FloatingSize)
  | Pointer
deriving DecidableEq, Repr

/-- A value that has a writable location (`LValue<USize>` in the source). -/
inductive LValue (USize : Type) where
  | Reg (r : Register)
  | DerefReg (r : Register)
  | DerefAddr (addr : USize)
deriving DecidableEq, Repr

/-- A value with a readable location: an LValue or a literal. -/
inductive RValue (USize : Type) where
  | Writeable (l : LValue USize)
  | Literal (n : Nat)
deriving DecidableEq, Repr

/-- Condition of a conditional jump. -/
inductive JumpCondition where
  | Zero
  | NonZero
deriving DecidableEq, Repr

/-- Three-operand binary operation `dst = a OP b`. -/
structure BinaryOperator (USize : Type) where
  a : RValue USize
  b : RValue USize
  dst : LValue USize
  value : PrimitiveValue
deriving DecidableEq, Repr

/-- A reference to a function: an index into a `CompilationUnit`. -/
structure FunctionRef where
  idx : Nat
deriving DecidableEq, Repr

/-- The high level instructions, including their operands and destination. -/
inductive Instruction (USize : Type) where
  | Move (src : RValue USize) (dst : LValue USize) (value : PrimitiveValue)
  | LoadParameter (n : Nat) (dst : Register)
  | Add (p : BinaryOperator USize)
  | Subtract (p : BinaryOperator USize)
  | Multiply (p : BinaryOperator USize)
  | Divide (p : BinaryOperator USize)
  | Call (function : FunctionRef) (return_value : Option (LValue USize))
  | Return (value : RValue USize)
  | Jump (offset : Int)
  | ConditionalJump (offset : Int) (value : LValue USize) (condition : JumpCondition)
deriving DecidableEq, Repr

/-- A single high level assembled function. -/
structure Function (USize : Type) where
  name : String
  instructions : List (Instruction USize)
deriving DecidableEq, Repr

/-- The 64-bit word type of the x86_64 backend (`USize64(u64)`). -/
abbrev USize64 : Type := Nat

/-- Failure modes of `Function::compute_ins_offset`: a negative target makes
the `try_into().expect(..)` panic, a target past the end returns `Err(())`. -/
inductive OffsetError where
  | negativeTarget
  | pastEnd
deriving DecidableEq, Repr

/-- `Function::compute_ins_offset`: resolve the relative `offset` of the
instruction at `index` to an absolute instruction index. -/
def Function.compute_ins_offset {USize : Type} (self : Function USize)
    (index : Nat) (offset : Int) : Except OffsetError Nat :=
  if offset + (index : Int) < 0 then .error .negativeTarget
  else if (self.instructions.length : Int) ≤ offset + (index : Int) then .error .pastEnd
  else .ok (offset + (index : Int)).toNat

/-- Helper for `to_two_args`: the `b`-side check of the source function. -/
def BinaryOperator.tryTwoArgsB {USize : Type} [DecidableEq USize]
    (self : BinaryOperator USize) : Option (LValue USize × RValue USize) :=
  match self.b with
  | .Writeable b => if self.dst = b then some (b, self.a) else none
  | _ => none

/-- `BinaryOperator::to_two_args`: convert `dst = a OP b` into `dst OP= other`,
returning `none` when `dst` aliases neither operand. The `a` operand is
checked first, exactly as in the source. -/
def BinaryOperator.to_two_args {USize : Type} [DecidableEq USize]
    (self : BinaryOperator USize) : Option (LValue USize × RValue USize) :=
  match self.a with
  | .Writeable a =>
    if self.dst = a then some (a, self.b) else self.tryTwoArgsB
  | _ => self.tryTwoArgsB

/-- Largest u16 value; the register allocator's counter is a u16. -/
def U16_MAX : Nat := 65535

/-- `u16::checked_add`, specialised to the allocator's use. -/
def checked_add_u16 (a b : Nat) : Option Nat :=
  if a + b ≤ U16_MAX then some (a + b) else none

/-- A helper struct for allocating unique registers (`RegisterAllocator(u16)`). -/
structure RegisterAllocator where
  count : Nat
deriving DecidableEq, Repr

/-- `RegisterAllocator::alloc`: bump the counter with `checked_add` and wrap
the new counter value as a register; counter overflow is the
"Register id overflow" panic, modelled as `.error ()`. -/
def RegisterAllocator.alloc (self : RegisterAllocator) :
    Except Unit (Register × RegisterAllocator) :=
  match checked_add_u16 self.count 1 with
  | none => .error ()
  | some c => .ok (⟨c⟩, ⟨c⟩)

/-- Run `n` successive `alloc()` calls, collecting the returned registers;
any failure aborts the whole run. -/
def allocList : Nat → RegisterAllocator → Except Unit (List Register)
  | 0, _ => .ok []
  | n + 1, a =>
    match a.alloc with
    | .error e => .error e
    | .ok (r, a2) =>
      match allocList n a2 with
      | .error e => .error e
      | .ok rs => .ok (r :: rs)

/-- The three caller-volatile 64-bit physical registers the engine may use. -/
inductive PhysReg64 where
  | rax
  | r10
  | r11
deriving DecidableEq, Repr

/-- The 32-bit views of the same physical registers, in the same order. -/
inductive PhysReg32 where
  | eax
  | r10d
  | r11d
deriving DecidableEq, Repr

/-- One call made by `gen_function` against the iced `CodeAssembler`.
Labels are identified by the order of `create_label` calls. -/
inductive AsmItem where
  | setLabel (id : Nat)
  | movRR (dst src : PhysReg64)
  | movRI (dst : PhysReg64) (imm : Int)
  | addRR (a b : PhysReg64)
  | addRI (a : PhysReg64) (imm : Int)
  | subRR (a b : PhysReg64)
  | subRI (a : PhysReg64) (imm : Int)
  | imulRR (a b : PhysReg64)
  | imulRM (a : PhysReg32) (dataLabel : Nat)
  | jmp (target : Nat)
  | db (bytes : List Nat)
deriving DecidableEq, Repr

/-- Failure modes of `gen_function`, one per panic site, following the
spec's error taxonomy; each carries the index of the instruction whose
processing failed (the budget check carries needed/available counts). -/
inductive GenError where
  | offsetOutOfRange (index : Nat)
  | registerBudgetExceeded (needed available : Nat)
  | unsupportedOperandShape (index : Nat)
  | unsupportedWidth (index : Nat)
  | unimplementedFeature (index : Nat)
deriving DecidableEq, Repr

/-- State built by pass 1 of `gen_function`: the distinct virtual registers
in first-seen order (the key set of the `registers` HashMap), the map from
jump-target instruction index to label id, and the assembler's label counter. -/
structure ScanState where
  registers : List Register
  labels : List (Nat × Nat)
  nextLabel : Nat
deriving DecidableEq, Repr

/-- Record a register in the key set (`registers.entry(reg).or_default()`:
only the key set is ever observed, the access counts are not). -/
def addReg (r : Register) (regs : List Register) : List Register :=
  if r ∈ regs then regs else regs ++ [r]

/-- `add_reg_storage`: only a direct `Reg` counts; `DerefReg`/`DerefAddr` do not. -/
def addRegStorage (v : LValue USize64) (regs : List Register) : List Register :=
  match v with
  | .Reg r => addReg r regs
  | _ => regs

/-- `add_reg_rvalue`: literals contribute nothing. -/
def addRegRValue (v : RValue USize64) (regs : List Register) : List Register :=
  match v with
  | .Writeable l => addRegStorage l regs
  | _ => regs

/-- `add_binary_op`: record `a`, then `b`, then `dst`. -/
def addBinaryOp (p : BinaryOperator USize64) (regs : List Register) : List Register :=
  addRegStorage p.dst (addRegRValue p.b (addRegRValue p.a regs))

/-- `labels.entry(dst).or_insert_with(|| ass.create_label())`: bind a fresh
label to the target index unless one is already recorded. -/
def insertLabel (dst : Nat) (s : ScanState) : ScanState :=
  match s.labels.lookup dst with
  | some _ => s
  | none =>
    { s with labels := s.labels ++ [(dst, s.nextLabel)], nextLabel := s.nextLabel + 1 }

/-- One step of pass 1 at instruction index `i`. A `ConditionalJump` whose
target cannot be computed aborts the pass (the `.unwrap()` on
`compute_ins_offset`, and the panic inside it for negative targets). -/
def scanStep (f : Function USize64) (i : Nat) (ins : Instruction USize64)
    (s : ScanState) : Except GenError ScanState :=
  match ins with
  | .Move src dst _ =>
    .ok { s with registers := addRegStorage dst (addRegRValue src s.registers) }
  | .LoadParameter _ _ => .ok s
  | .Add p => .ok { s with registers := addBinaryOp p s.registers }
  | .Subtract p => .ok { s with registers := addBinaryOp p s.registers }
  | .Multiply p => .ok { s with registers := addBinaryOp p s.registers }
  | .Divide p => .ok { s with registers := addBinaryOp p s.registers }
  | .Call _ rv =>
    .ok { s with registers :=
      match rv with
      | some l => addRegStorage l s.registers
      | none => s.registers }
  | .Return v => .ok { s with registers := addRegRValue v s.registers }
  | .Jump _ => .ok s
  | .ConditionalJump offset v _ =>
    match f.compute_ins_offset i offset with
    | .error _ => .error (.offsetOutOfRange i)
    | .ok dst =>
      .ok (insertLabel dst { s with registers := addRegStorage v s.registers })

/-- Pass 1 over the instructions starting at index `i`. -/
def scanFrom (f : Function USize64) :
    Nat → List (Instruction USize64) → ScanState → Except GenError ScanState
  | _, [], s => .ok s
  | i, ins :: rest, s =>
    match scanStep f i ins s with
    | .error e => .error e
    | .ok s2 => scanFrom f (i + 1) rest s2

/-- Pass 1 of `gen_function`, run over the whole function from a fresh state. -/
def collectScan (f : Function USize64) : Except GenError ScanState :=
  scanFrom f 0 f.instructions ⟨[], [], 0⟩

/-- `VOLATILE_PHYSICAL_REGISTER_COUNT`: the physical register budget. -/
def VOLATILE_PHYSICAL_REGISTER_COUNT : Nat := 3

/-- `available_phys_regs64 = [rax, r10, r11]`. -/
def available_phys_regs64 : List PhysReg64 := [.rax, .r10, .r11]

/-- `available_phys_regs32 = [eax, r10d, r11d]`. -/
def available_phys_regs32 : List PhysReg32 := [.eax, .r10d, .r11d]

/-- Position of a register in the HashMap's key enumeration `order`
(the list length when absent, which never happens for registers the emit
pass looks up). -/
def regIndex : List Register → Register → Nat
  | [], _ => 0
  | x :: xs, r => if x = r then 0 else regIndex xs r + 1

/-- `map_register64`: the physical 64-bit register assigned to `r` when the
HashMap enumerates its keys in the order `order`. -/
def mapRegister64 (order : List Register) (r : Register) : PhysReg64 :=
  available_phys_regs64.getD (regIndex order r) .rax

/-- `map_register32`: the 32-bit view, using the same enumeration order. -/
def mapRegister32 (order : List Register) (r : Register) : PhysReg32 :=
  available_phys_regs32.getD (regIndex order r) .eax

/-- Rust's `as i64` applied to a `usize` literal. -/
def toI64 (n : Nat) : Int :=
  let m : Nat := n % 2 ^ 64
  if m < 2 ^ 63 then (m : Int) else (m : Int) - 2 ^ 64

/-- Rust's `as i32` applied to a `usize` literal. -/
def toI32 (n : Nat) : Int :=
  let m : Nat := n % 2 ^ 32
  if m < 2 ^ 31 then (m : Int) else (m : Int) - 2 ^ 32

/-- `(lit as u32).to_ne_bytes()` on x86_64: the four little-endian bytes. -/
def u32LeBytes (n : Nat) : List Nat :=
  [n % 256, n / 256 % 256, n / 65536 % 256, n / 16777216 % 256]

/-- Assembler state during pass 2: the label counter carried over from
pass 1 and the trace of assembler calls made so far. -/
structure EmitState where
  nextLabel : Nat
  trace : List AsmItem
deriving DecidableEq, Repr

/-- Append one assembler call to the trace. -/
def emit (it : AsmItem) (e : EmitState) : EmitState :=
  { e with trace := e.trace ++ [it] }

/-- Pass 2 treatment of the instruction at index `i` (without the label
placement, which `emitFrom` performs before each instruction). -/
def emitIns (order : List Register) (i : Nat) (ins : Instruction USize64)
    (e : EmitState) : Except GenError EmitState :=
  match ins with
  | .Move src dst _ =>
    match dst, src with
    | .Reg d, .Writeable (.Reg s) =>
      .ok (emit (.movRR (mapRegister64 order d) (mapRegister64 order s)) e)
    | .Reg d, .Literal n =>
      .ok (emit (.movRI (mapRegister64 order d) (toI64 n)) e)
    | _, _ => .error (.unsupportedOperandShape i)
  | .LoadParameter _ _ => .ok e
  | .Add p =>
    match p.to_two_args with
    | none => .error (.unsupportedOperandShape i)
    | some (x, y) =>
      match x, y with
      | .Reg a, .Writeable (.Reg b) =>
        .ok (emit (.addRR (mapRegister64 order a) (mapRegister64 order b)) e)
      | .Reg a, .Literal lit =>
        .ok (emit (.addRI (mapRegister64 order a) (toI32 lit)) e)
      | _, _ => .error (.unsupportedOperandShape i)
  | .Subtract p =>
    match p.to_two_args with
    | none => .error (.unsupportedOperandShape i)
    | some (x, y) =>
      match x, y with
      | .Reg a, .Writeable (.Reg b) =>
        .ok (emit (.subRR (mapRegister64 order a) (mapRegister64 order b)) e)
      | .Reg a, .Literal lit =>
        .ok (emit (.subRI (mapRegister64 order a) (toI32 lit)) e)
      | _, _ => .error (.unsupportedOperandShape i)
  | .Multiply p =>
    match p.to_two_args with
    | none => .error (.unsupportedOperandShape i)
    | some (x, y) =>
      match x, y with
      | .Reg a, .Writeable (.Reg b) =>
        match p.value with
        | .Signed _ =>
          .ok (emit (.imulRR (mapRegister64 order a) (mapRegister64 order b)) e)
        | .Unsigned _ =>
          .ok (emit (.imulRR (mapRegister64 order a) (mapRegister64 order b)) e)
        | _ => .error (.unimplementedFeature i)
      | .Reg a, .Literal lit =>
        let skipData := e.nextLabel
        let e1 := { e with nextLabel := e.nextLabel + 1 }
        let e2 := emit (.jmp skipData) e1
        let dataLbl := e2.nextLabel
        let e3 := { e2 with nextLabel := e2.nextLabel + 1 }
        let e4 := emit (.db (u32LeBytes lit)) e3
        let e5 := emit (.setLabel skipData) e4
        match p.value with
        | .Signed bits =>
          match bits with
          | .B32 => .ok (emit (.imulRM (mapRegister32 order a) dataLbl) e5)
          | _ => .error (.unsupportedWidth i)
        | .Unsigned bits =>
          match bits with
          | .B32 => .ok (emit (.imulRM (mapRegister32 order a) dataLbl) e5)
          | _ => .error (.unsupportedWidth i)
        | _ => .error (.unimplementedFeature i)
      | _, _ => .error (.unsupportedOperandShape i)
  | .Divide p =>
    match p.to_two_args with
    | none => .error (.unsupportedOperandShape i)
    | some (x, y) =>
      match x, y with
      | .Reg _, .Writeable (.Reg _) => .ok e
      | .Reg _, .Literal _ => .ok e
      | _, _ => .error (.unsupportedOperandShape i)
  | .Call _ _ => .ok e
  | .Return _ => .ok e
  | .Jump _ => .ok e
  | .ConditionalJump _ _ _ => .ok e

/-- Pass 2 over the instructions starting at index `i`: place the label
bound to index `i` (if pass 1 recorded one) and then lower the instruction. -/
def emitFrom (order : List Register) (labels : List (Nat × Nat)) :
    Nat → List (Instruction USize64) → EmitState → Except GenError EmitState
  | _, [], e => .ok e
  | i, ins :: rest, e =>
    let e1 :=
      match labels.lookup i with
      | some id => emit (.setLabel id) e
      | none => e
    match emitIns order i ins e1 with
    | .error err => .error err
    | .ok e2 => emitFrom order labels (i + 1) rest e2

/-- `gen_function` for the x86_64 backend. `order` is the enumeration order
of the register HashMap's keys (the one nondeterministic input: any
permutation of the collected register set can occur at run time). On
success the result is the trace of assembler calls, whose byte encoding is
delegated to the external assembler. -/
def gen_function (order : List Register) (f : Function USize64) :
    Except GenError (List AsmItem) :=
  match collectScan f with
  | .error e => .error e
  | .ok s =>
    if VOLATILE_PHYSICAL_REGISTER_COUNT < s.registers.length then
      .error (.registerBudgetExceeded s.registers.length VOLATILE_PHYSICAL_REGISTER_COUNT)
    else
      match emitFrom order s.labels 0 f.instructions ⟨s.nextLabel, []⟩ with
      | .error e => .error e
      | .ok e => .ok e.trace

/-- Registers occurring directly as a `Reg` location (the only positions
pass 1's `add_reg_storage` records). -/
def lvalDirectRegs : LValue USize64 → List Register
  | .Reg r => [r]
  | _ => []

/-- Direct `Reg` registers of a readable operand. -/
def rvalDirectRegs : RValue USize64 → List Register
  | .Writeable l => lvalDirectRegs l
  | _ => []

/-- The registers pass 1 records for one instruction, in recording order. -/
def insDirectRegs : Instruction USize64 → List Register
  | .Move src dst _ => rvalDirectRegs src ++ lvalDirectRegs dst
  | .LoadParameter _ _ => []
  | .Add p => rvalDirectRegs p.a ++ rvalDirectRegs p.b ++ lvalDirectRegs p.dst
  | .Subtract p => rvalDirectRegs p.a ++ rvalDirectRegs p.b ++ lvalDirectRegs p.dst
  | .Multiply p => rvalDirectRegs p.a ++ rvalDirectRegs p.b ++ lvalDirectRegs p.dst
  | .Divide p => rvalDirectRegs p.a ++ rvalDirectRegs p.b ++ lvalDirectRegs p.dst
  | .Call _ rv =>
    match rv with
    | some l => lvalDirectRegs l
    | none => []
  | .Return v => rvalDirectRegs v
  | .Jump _ => []
  | .ConditionalJump _ v _ => lvalDirectRegs v

/-- Registers referenced by a writable location in the sense of the spec:
a register held inside a `DerefReg` also counts. -/
def lvalSpecRegs : LValue USize64 → List Register
  | .Reg r => [r]
  | .DerefReg r => [r]
  | .DerefAddr _ => []

/-- Spec-sense registers of a readable operand. -/
def rvalSpecRegs : RValue USize64 → List Register
  | .Writeable l => lvalSpecRegs l
  | _ => []

/-- Registers referenced anywhere by an instruction, following the spec's
words for comparison with the code's collection: every operand position
contributes, including registers inside `DerefReg` locations and the
destination register of `LoadParameter`. -/
def specReferencedRegs : Instruction USize64 → List Register
  | .Move src dst _ => rvalSpecRegs src ++ lvalSpecRegs dst
  | .LoadParameter _ dst => [dst]
  | .Add p => rvalSpecRegs p.a ++ rvalSpecRegs p.b ++ lvalSpecRegs p.dst
  | .Subtract p => rvalSpecRegs p.a ++ rvalSpecRegs p.b ++ lvalSpecRegs p.dst
  | .Multiply p => rvalSpecRegs p.a ++ rvalSpecRegs p.b ++ lvalSpecRegs p.dst
  | .Divide p => rvalSpecRegs p.a ++ rvalSpecRegs p.b ++ lvalSpecRegs p.dst
  | .Call _ rv =>
    match rv with
    | some l => lvalSpecRegs l
    | none => []
  | .Return v => rvalSpecRegs v
  | .Jump _ => []
  | .ConditionalJump _ v _ => lvalSpecRegs v

/-- The distinct registers a whole function references in the sense of the
spec, in first occurrence order. -/
def specReferencedAll (f : Function USize64) : List Register :=
  ((f.instructions.map specReferencedRegs).flatten).dedup

/-- The instruction at index `j` is a `ConditionalJump` whose target falls
outside `[0, length)`. -/
def condJumpBad (f : Function USize64) (j : Nat) : Prop :=
  ∃ offset v c, f.instructions[j]? = some (.ConditionalJump offset v c) ∧
    (offset + (j : Int) < 0 ∨ (f.instructions.length : Int) ≤ offset + (j : Int))

/-- First four register ids, as the allocator would hand them out. -/
def vr1 : Register := ⟨1⟩

/-- Second register id. -/
def vr2 : Register := ⟨2⟩

/-- Third register id. -/
def vr3 : Register := ⟨3⟩

/-- Fourth register id. -/
def vr4 : Register := ⟨4⟩

/-- Signed 32-bit value tag used by the concrete programs below. -/
def s32 : PrimitiveValue := .Signed .B32

/-- One-instruction function whose `Divide` canonicalizes to
(register, register): `r1 = r1 / r1`. -/
def fDivNoop : Function USize64 :=
  ⟨"div_noop",
   [.Divide ⟨.Writeable (.Reg vr1), .Writeable (.Reg vr1), .Reg vr1, s32⟩]⟩

/-- Two-register function for the determinism counterexample:
`r1 = 1; r2 = 2`. -/
def fTwoRegs : Function USize64 :=
  ⟨"two_regs",
   [.Move (.Literal 1) (.Reg vr1) s32,
    .Move (.Literal 2) (.Reg vr2) s32]⟩

/-- Function whose only register reference is the `LoadParameter`
destination, which pass 1 does not record. -/
def fLoadParam : Function USize64 :=
  ⟨"load_param", [.LoadParameter 0 vr1]⟩

/-- Function referencing four distinct registers, only three of which are
in positions pass 1 records (`vr4` appears only as a `LoadParameter`
destination). -/
def fFourRegs : Function USize64 :=
  ⟨"four_regs",
   [.LoadParameter 0 vr4,
    .Move (.Literal 0) (.Reg vr1) s32,
    .Move (.Literal 0) (.Reg vr2) s32,
    .Move (.Literal 0) (.Reg vr3) s32]⟩

/-- Function whose four recorded registers exceed the budget of three. -/
def fFourDirect : Function USize64 :=
  ⟨"four_direct",
   [.Move (.Literal 0) (.Reg vr1) s32,
    .Move (.Literal 0) (.Reg vr2) s32,
    .Move (.Literal 0) (.Reg vr3) s32,
    .Move (.Literal 0) (.Reg vr4) s32]⟩

/-- One plain `Jump` whose target (index 5) is far outside the function. -/
def fBadJump : Function USize64 :=
  ⟨"bad_jump", [.Jump 5]⟩

/-- One `ConditionalJump` with offset −1 at index 0 (target index −1). -/
def fBadCondJump : Function USize64 :=
  ⟨"bad_cond_jump", [.ConditionalJump (-1) (.Reg vr1) .Zero]⟩

/-- The end-to-end test program from the spec's scenario:
`r1 = 1; r1 = 2 + r1; r1 = r1 * 2`, all signed 32-bit. -/
def fEndToEnd : Function USize64 :=
  ⟨"test",
   [.Move (.Literal 1) (.Reg vr1) s32,
    .Add ⟨.Literal 2, .Writeable (.Reg vr1), .Reg vr1, s32⟩,
    .Multiply ⟨.Writeable (.Reg vr1), .Literal 2, .Reg vr1, s32⟩]⟩

/-- Single-register, single-move function used as a concrete witness input. -/
def fOneMove : Function USize64 :=
  ⟨"one_move", [.Move (.Literal 7) (.Reg vr1) s32]⟩

/-- Single-instruction function returning `r1`, a recorded register position. -/
def fReturnReg : Function USize64 :=
  ⟨"return_reg", [.Return (.Writeable (.Reg vr1))]⟩

theorem allocList_ok (n : Nat) :
    ∀ c, c + n ≤ U16_MAX →
      allocList n ⟨c⟩ = .ok ((List.range' (c + 1) n).map Register.mk) := by
  induction n with
  | zero => intro c _; rfl
  | succ n ih =>
    intro c h
    have hc : c + 1 ≤ U16_MAX := by omega
    have halloc : (⟨c⟩ : RegisterAllocator).alloc = .ok (⟨c + 1⟩, ⟨c + 1⟩) := by
      simp [RegisterAllocator.alloc, checked_add_u16, hc]
    simp only [allocList, halloc, ih (c + 1) (by omega)]
    simp [List.range'_succ]

theorem allocList_err (n : Nat) :
    ∀ c, c ≤ U16_MAX → U16_MAX < c + n → allocList n ⟨c⟩ = .error () := by
  induction n with
  | zero => intro c h1 h2; omega
  | succ n ih =>
    intro c h1 h2
    by_cases hce : c = U16_MAX
    · subst hce
      have herr : (⟨U16_MAX⟩ : RegisterAllocator).alloc = .error () := by
        simp [RegisterAllocator.alloc, checked_add_u16, U16_MAX]
      simp only [allocList, herr]
    · have hc : c + 1 ≤ U16_MAX := by omega
      have halloc : (⟨c⟩ : RegisterAllocator).alloc = .ok (⟨c + 1⟩, ⟨c + 1⟩) := by
        simp [RegisterAllocator.alloc, checked_add_u16, hc]
      simp only [allocList, halloc, ih (c + 1) (by omega) (by omega)]

/-- C8: every alloc() sequence on a fresh RegisterAllocator yields pairwise
distinct, strictly increasing, never-zero registers; the first 65535 calls
succeed (returning ids 1..n) and the 65536th call fails instead of wrapping. -/
theorem C8_theorem :
    (∀ n, n ≤ U16_MAX →
      allocList n ⟨0⟩ = .ok ((List.range' 1 n).map Register.mk)) ∧
    (∀ n, ((List.range' 1 n).map Register.mk).Pairwise (fun r s => r.val < s.val)) ∧
    (∀ n r, r ∈ (List.range' 1 n).map Register.mk → r.val ≠ 0) ∧
    allocList (U16_MAX + 1) ⟨0⟩ = .error () := by
  refine ⟨fun n h => allocList_ok n 0 (by omega), fun n => ?_, fun n r hr => ?_, ?_⟩
  · rw [List.pairwise_map]
    exact List.pairwise_lt_range' 1 n
  · rw [List.mem_map] at hr
    obtain ⟨m, hm, hmk⟩ := hr
    rw [List.mem_range'_1] at hm
    subst hmk
    simpa using by omega
  · exact allocList_err (U16_MAX + 1) 0 (by omega) (by omega)

/-- C8 witness: three allocations from a fresh allocator return registers
1, 2, 3 in order. -/
theorem C8_witness : allocList 3 ⟨0⟩ = .ok [⟨1⟩, ⟨2⟩, ⟨3⟩] :=
  C8_theorem.1 3 (by decide)

/-- C7: compute_ins_offset succeeds with the absolute index `index + offset`
exactly when that target lies in `[0, length)`; it fails (by panic for a
negative target, by `Err` for one past the end) otherwise; with offset 0 it
succeeds exactly when the index itself is in range. -/
theorem C7_theorem (f : Function USize64) (i : Nat) (off : Int) :
    ((∃ u, f.compute_ins_offset i off = .ok u ∧ (u : Int) = off + i) ↔
      (0 ≤ off + (i : Int) ∧ off + (i : Int) < (f.instructions.length : Int))) ∧
    ((∃ e, f.compute_ins_offset i off = .error e) ↔
      (off + (i : Int) < 0 ∨ (f.instructions.length : Int) ≤ off + (i : Int))) ∧
    (f.compute_ins_offset i 0 = .ok i ↔ i < f.instructions.length) := by
  unfold Function.compute_ins_offset
  refine ⟨⟨?_, ?_⟩, ⟨?_, ?_⟩, ⟨?_, ?_⟩⟩
  · rintro ⟨u, hu, hval⟩
    split_ifs at hu with h1 h2 <;> omega
  · rintro ⟨hge, hlt⟩
    have h1 : ¬(off + (i : Int) < 0) := by omega
    have h2 : ¬((f.instructions.length : Int) ≤ off + (i : Int)) := by omega
    rw [if_neg h1, if_neg h2]
    exact ⟨(off + (i : Int)).toNat, rfl, by omega⟩
  · rintro ⟨e, he⟩
    split_ifs at he with h1 h2
    · exact Or.inl h1
    · exact Or.inr h2
  · intro h
    by_cases h1 : off + (i : Int) < 0
    · exact ⟨.negativeTarget, by rw [if_pos h1]⟩
    · have h2 : (f.instructions.length : Int) ≤ off + (i : Int) := by omega
      exact ⟨.pastEnd, by rw [if_neg h1, if_pos h2]⟩
  · intro h
    split_ifs at h with h1 h2 <;> omega
  · intro h
    have h1 : ¬((0 : Int) + (i : Int) < 0) := by omega
    have h2 : ¬((f.instructions.length : Int) ≤ 0 + (i : Int)) := by omega
    rw [if_neg h1, if_neg h2]
    have ht : ((0 : Int) + (i : Int)).toNat = i := by omega
    rw [ht]

/-- C6: to_two_args returns `(dst, b)` when `dst` aliases `a`, `(dst, a)`
when it aliases `b`, `none` when it aliases neither; in particular
`a = Literal 2, b = Writeable (Reg r1), dst = Reg r1` yields
`(Reg r1, Literal 2)`. -/
theorem C6_theorem (op : BinaryOperator USize64) :
    (op.a = .Writeable op.dst → op.to_two_args = some (op.dst, op.b)) ∧
    (op.b = .Writeable op.dst → op.to_two_args = some (op.dst, op.a)) ∧
    (op.a ≠ .Writeable op.dst → op.b ≠ .Writeable op.dst →
      op.to_two_args = none) ∧
    (BinaryOperator.to_two_args
      (⟨.Literal 2, .Writeable (.Reg vr1), .Reg vr1, s32⟩ : BinaryOperator USize64)
      = some (.Reg vr1, .Literal 2)) := by
  refine ⟨?_, ?_, ?_, rfl⟩
  · intro ha
    simp [BinaryOperator.to_two_args, ha]
  · intro hb
    rcases hA : op.a with l | n
    · by_cases hd : op.dst = l
      · subst hd
        simp [BinaryOperator.to_two_args, hA, hb]
      · simp [BinaryOperator.to_two_args, BinaryOperator.tryTwoArgsB, hA, hb, hd]
    · simp [BinaryOperator.to_two_args, BinaryOperator.tryTwoArgsB, hA, hb]
  · intro ha hb
    rcases hA : op.a with l | n
    · have hd : op.dst ≠ l := fun h => ha (by rw [hA, h])
      rcases hB : op.b with m | k
      · have hdm : op.dst ≠ m := fun h => hb (by rw [hB, h])
        simp [BinaryOperator.to_two_args, BinaryOperator.tryTwoArgsB, hA, hB, hd, hdm]
      · simp [BinaryOperator.to_two_args, BinaryOperator.tryTwoArgsB, hA, hB, hd]
    · rcases hB : op.b with m | k
      · have hdm : op.dst ≠ m := fun h => hb (by rw [hB, h])
        simp [BinaryOperator.to_two_args, BinaryOperator.tryTwoArgsB, hA, hB, hdm]
      · simp [BinaryOperator.to_two_args, BinaryOperator.tryTwoArgsB, hA, hB]

/-- C6 witness: `a = Writeable (Reg r1), b = Literal 5, dst = Reg r1` gives
`(Reg r1, Literal 5)` via the first conjunct. -/
theorem C6_witness :
    BinaryOperator.to_two_args
      (⟨.Writeable (.Reg vr1), .Literal 5, .Reg vr1, s32⟩ : BinaryOperator USize64)
      = some (.Reg vr1, .Literal 5) :=
  (C6_theorem ⟨.Writeable (.Reg vr1), .Literal 5, .Reg vr1, s32⟩).1 rfl

/-- C10: when both operands alias the destination, the `a`-branch wins and
the result pairs the destination with the `b` operand. -/
theorem C10_theorem (op : BinaryOperator USize64)
    (ha : op.a = .Writeable op.dst) (hb : op.b = .Writeable op.dst) :
    op.to_two_args = some (op.dst, op.b) := by
  simp [BinaryOperator.to_two_args, ha]

/-- C10 witness: `a = b = Writeable (Reg r1), dst = Reg r1` yields
`(Reg r1, Writeable (Reg r1))` with the `b` operand second. -/
theorem C10_witness :
    BinaryOperator.to_two_args
      (⟨.Writeable (.Reg vr1), .Writeable (.Reg vr1), .Reg vr1, s32⟩ :
        BinaryOperator USize64)
      = some (.Reg vr1, .Writeable (.Reg vr1)) :=
  C10_theorem ⟨.Writeable (.Reg vr1), .Writeable (.Reg vr1), .Reg vr1, s32⟩ rfl rfl

/-- C1 counterexample: the function `r1 = r1 / r1` lowers successfully and
emits nothing — a silent no-op, not an UnimplementedFeature failure. -/
theorem C1_counterexample : gen_function [vr1] fDivNoop = .ok [] := rfl

/-- C1 (amended): lowering a `Divide` never emits an instruction and never
reports an unimplemented-divide failure: canonicalized (register, register)
or (register, literal) operands are a silent no-op, anything else aborts
with the operand-shape error. -/
theorem C1_theorem (order : List Register) (i : Nat) (p : BinaryOperator USize64)
    (e : EmitState) :
    emitIns order i (.Divide p) e = .ok e ∨
    emitIns order i (.Divide p) e = .error (.unsupportedOperandShape i) := by
  rcases h : p.to_two_args with _ | ⟨x, y⟩
  · right; simp [emitIns, h]
  · rcases x with r | r | a
    · rcases y with l | n
      · rcases l with t | t | ad
        · left; simp [emitIns, h]
        · right; simp [emitIns, h]
        · right; simp [emitIns, h]
      · left; simp [emitIns, h]
    · right; simp [emitIns, h]
    · right; simp [emitIns, h]

/-- C9: the spec's end-to-end program uses exactly one distinct virtual
register, stays within the budget, lowers successfully, and its emitted
sequence is: move literal 1 into the single physical register, add
literal 2 to it, then the 32-bit multiply-by-literal-2 materialized as a
jump over an inline 4-byte data block plus a memory-operand imul, all on
the one assigned physical register (rax / eax). -/
theorem C9_theorem :
    collectScan fEndToEnd = .ok ⟨[vr1], [], 0⟩ ∧
    gen_function [vr1] fEndToEnd =
      .ok [.movRI .rax 1, .addRI .rax 2, .jmp 0, .db [2, 0, 0, 0],
           .setLabel 0, .imulRM .eax 1] :=
  ⟨rfl, rfl⟩

/-- C2 counterexample: the same two-register function lowered under the two
possible HashMap key enumeration orders yields different outputs — the
physical register chosen for each virtual register differs. -/
theorem C2_counterexample :
    collectScan fTwoRegs = .ok ⟨[vr1, vr2], [], 0⟩ ∧
    List.Perm [vr2, vr1] [vr1, vr2] ∧
    gen_function [vr1, vr2] fTwoRegs = .ok [.movRI .rax 1, .movRI .r10 2] ∧
    gen_function [vr2, vr1] fTwoRegs = .ok [.movRI .r10 1, .movRI .rax 2] ∧
    ([AsmItem.movRI .rax 1, AsmItem.movRI .r10 2] ≠
      [AsmItem.movRI .r10 1, AsmItem.movRI .rax 2]) :=
  ⟨rfl, List.Perm.swap vr1 vr2 [], rfl, rfl, by decide⟩

/-- C3 counterexample: a function whose only instruction is
`LoadParameter {n = 0, dst = r1}` references register r1, yet pass 1
collects the empty register set. -/
theorem C3_counterexample :
    collectScan fLoadParam = .ok ⟨[], [], 0⟩ ∧
    specReferencedRegs (.LoadParameter 0 vr1) = [vr1] :=
  ⟨rfl, rfl⟩

/-- C4 counterexample: a function referencing four distinct virtual
registers (one of them only as a LoadParameter destination) passes the
budget check and lowers successfully instead of failing with
RegisterBudgetExceeded. -/
theorem C4_counterexample :
    (specReferencedAll fFourRegs).length = 4 ∧
    VOLATILE_PHYSICAL_REGISTER_COUNT = 3 ∧
    gen_function [vr1, vr2, vr3] fFourRegs =
      .ok [.movRI .rax 0, .movRI .r10 0, .movRI .r11 0] :=
  ⟨rfl, rfl, rfl⟩

/-- C5 counterexample: a plain `Jump` with offset 5 at index 0 of a
one-instruction function targets index 5, outside `[0, 1)`, yet lowering
succeeds — plain Jump targets are never validated. -/
theorem C5_counterexample :
    ((fBadJump.instructions.length : Int) ≤ 5 + (0 : Int)) ∧
    gen_function [] fBadJump = .ok [] :=
  ⟨by decide, rfl⟩

theorem addReg_mem (r x : Register) (regs : List Register) :
    r ∈ addReg x regs ↔ r ∈ regs ∨ r = x := by
  unfold addReg
  split_ifs with h
  · exact ⟨Or.inl, fun hr => by rcases hr with hr | rfl; exacts [hr, h]⟩
  · simp [List.mem_append]

theorem addReg_nodup (x : Register) (regs : List Register) (h : regs.Nodup) :
    (addReg x regs).Nodup := by
  unfold addReg
  split_ifs with hx
  · exact h
  · simp [List.nodup_append, h, hx]

theorem foldl_addReg_mem (l : List Register) :
    ∀ regs r, r ∈ l.foldl (fun rs x => addReg x rs) regs ↔ r ∈ regs ∨ r ∈ l := by
  induction l with
  | nil => simp
  | cons x xs ih =>
    intro regs r
    simp only [List.foldl_cons]
    rw [ih (addReg x regs) r, addReg_mem]
    simp only [List.mem_cons]
    tauto

theorem foldl_addReg_nodup (l : List Register) :
    ∀ regs, regs.Nodup → (l.foldl (fun rs x => addReg x rs) regs).Nodup := by
  induction l with
  | nil => intro regs h; exact h
  | cons x xs ih => intro regs h; exact ih _ (addReg_nodup x regs h)

theorem addRegStorage_eq_foldl (v : LValue USize64) (regs : List Register) :
    addRegStorage v regs = (lvalDirectRegs v).foldl (fun rs x => addReg x rs) regs := by
  cases v <;> rfl

theorem addRegRValue_eq_foldl (v : RValue USize64) (regs : List Register) :
    addRegRValue v regs = (rvalDirectRegs v).foldl (fun rs x => addReg x rs) regs := by
  cases v with
  | Writeable l => exact addRegStorage_eq_foldl l regs
  | Literal n => rfl

theorem addBinaryOp_eq_foldl (p : BinaryOperator USize64) (regs : List Register) :
    addBinaryOp p regs =
      (rvalDirectRegs p.a ++ rvalDirectRegs p.b ++ lvalDirectRegs p.dst).foldl
        (fun rs x => addReg x rs) regs := by
  simp [addBinaryOp, addRegStorage_eq_foldl, addRegRValue_eq_foldl, List.foldl_append]

theorem insertLabel_registers (d : Nat) (s : ScanState) :
    (insertLabel d s).registers = s.registers := by
  unfold insertLabel
  split <;> rfl

theorem scanStep_ok_registers (f : Function USize64) (k : Nat)
    (ins : Instruction USize64) (s s2 : ScanState)
    (h : scanStep f k ins s = .ok s2) :
    s2.registers = (insDirectRegs ins).foldl (fun rs x => addReg x rs) s.registers := by
  cases ins with
  | Move src dst value =>
    simp only [scanStep, Except.ok.injEq] at h
    subst h
    simp [insDirectRegs, addRegStorage_eq_foldl, addRegRValue_eq_foldl, List.foldl_append]
  | LoadParameter n dst =>
    simp only [scanStep, Except.ok.injEq] at h
    subst h
    simp [insDirectRegs]
  | Add p =>
    simp only [scanStep, Except.ok.injEq] at h
    subst h
    simpa [insDirectRegs] using addBinaryOp_eq_foldl p s.registers
  | Subtract p =>
    simp only [scanStep, Except.ok.injEq] at h
    subst h
    simpa [insDirectRegs] using addBinaryOp_eq_foldl p s.registers
  | Multiply p =>
    simp only [scanStep, Except.ok.injEq] at h
    subst h
    simpa [insDirectRegs] using addBinaryOp_eq_foldl p s.registers
  | Divide p =>
    simp only [scanStep, Except.ok.injEq] at h
    subst h
    simpa [insDirectRegs] using addBinaryOp_eq_foldl p s.registers
  | Call fr rv =>
    cases rv with
    | none =>
      simp only [scanStep, Except.ok.injEq] at h
      subst h
      simp [insDirectRegs]
    | some lv =>
      simp only [scanStep, Except.ok.injEq] at h
      subst h
      simp [insDirectRegs, addRegStorage_eq_foldl]
  | Return v =>
    simp only [scanStep, Except.ok.injEq] at h
    subst h
    simp [insDirectRegs, addRegRValue_eq_foldl]
  | Jump off =>
    simp only [scanStep, Except.ok.injEq] at h
    subst h
    simp [insDirectRegs]
  | ConditionalJump off v c =>
    simp only [scanStep] at h
    split at h
    · cases h
    · simp only [Except.ok.injEq] at h
      subst h
      simp [insDirectRegs, insertLabel_registers, addRegStorage_eq_foldl]

theorem scanFrom_registers (f : Function USize64) (l : List (Instruction USize64)) :
    ∀ k s s2, scanFrom f k l s = .ok s2 →
      ∀ r, r ∈ s2.registers ↔
        r ∈ s.registers ∨ ∃ ins, ins ∈ l ∧ r ∈ insDirectRegs ins := by
  induction l with
  | nil =>
    intro k s s2 h r
    simp only [scanFrom, Except.ok.injEq] at h
    subst h
    simp
  | cons ins rest ih =>
    intro k s s2 h r
    rw [scanFrom] at h
    cases hstep : scanStep f k ins s with
    | error e => rw [hstep] at h; simp at h
    | ok s1 =>
      rw [hstep] at h
      have hmem := scanStep_ok_registers f k ins s s1 hstep
      rw [ih (k + 1) s1 s2 h r, hmem, foldl_addReg_mem]
      constructor
      · rintro ((hr | hr) | ⟨x, hx, hr⟩)
        · exact Or.inl hr
        · exact Or.inr ⟨ins, List.mem_cons_self ins rest, hr⟩
        · exact Or.inr ⟨x, List.mem_cons_of_mem ins hx, hr⟩
      · rintro (hr | ⟨x, hx, hr⟩)
        · exact Or.inl (Or.inl hr)
        · rcases List.mem_cons.mp hx with rfl | hx2
          · exact Or.inl (Or.inr hr)
          · exact Or.inr ⟨x, hx2, hr⟩

theorem scanFrom_nodup (f : Function USize64) (l : List (Instruction USize64)) :
    ∀ k s s2, scanFrom f k l s = .ok s2 → s.registers.Nodup → s2.registers.Nodup := by
  induction l with
  | nil =>
    intro k s s2 h hnd
    simp only [scanFrom, Except.ok.injEq] at h
    subst h
    exact hnd
  | cons ins rest ih =>
    intro k s s2 h hnd
    rw [scanFrom] at h
    cases hstep : scanStep f k ins s with
    | error e => rw [hstep] at h; simp at h
    | ok s1 =>
      rw [hstep] at h
      refine ih (k + 1) s1 s2 h ?_
      rw [scanStep_ok_registers f k ins s s1 hstep]
      exact foldl_addReg_nodup _ _ hnd

theorem compute_err_iff (f : Function USize64) (i : Nat) (off : Int) :
    (∃ e, f.compute_ins_offset i off = .error e) ↔
      (off + (i : Int) < 0 ∨ (f.instructions.length : Int) ≤ off + (i : Int)) := by
  unfold Function.compute_ins_offset
  constructor
  · rintro ⟨e, he⟩
    split_ifs at he with h1 h2
    · exact Or.inl h1
    · exact Or.inr h2
  · intro h
    by_cases h1 : off + (i : Int) < 0
    · exact ⟨.negativeTarget, by rw [if_pos h1]⟩
    · have h2 : (f.instructions.length : Int) ≤ off + (i : Int) := by omega
      exact ⟨.pastEnd, by rw [if_neg h1, if_pos h2]⟩

theorem scanStep_condJump_err (f : Function USize64) (k : Nat) (off : Int)
    (v : LValue USize64) (c : JumpCondition) (s : ScanState)
    (hbad : off + (k : Int) < 0 ∨ (f.instructions.length : Int) ≤ off + (k : Int)) :
    scanStep f k (.ConditionalJump off v c) s = .error (.offsetOutOfRange k) := by
  obtain ⟨e, he⟩ := (compute_err_iff f k off).mpr hbad
  simp [scanStep, he]

theorem scanStep_ok_of_not_bad (f : Function USize64) (k : Nat)
    (ins : Instruction USize64) (s : ScanState)
    (hins : f.instructions[k]? = some ins) (hnb : ¬ condJumpBad f k) :
    ∃ s2, scanStep f k ins s = .ok s2 := by
  cases ins with
  | Move src dst value => exact ⟨_, rfl⟩
  | LoadParameter n dst => exact ⟨_, rfl⟩
  | Add p => exact ⟨_, rfl⟩
  | Subtract p => exact ⟨_, rfl⟩
  | Multiply p => exact ⟨_, rfl⟩
  | Divide p => exact ⟨_, rfl⟩
  | Call fr rv => exact ⟨_, rfl⟩
  | Return v => exact ⟨_, rfl⟩
  | Jump off => exact ⟨_, rfl⟩
  | ConditionalJump off v c =>
    have hgood : ¬(off + (k : Int) < 0 ∨
        (f.instructions.length : Int) ≤ off + (k : Int)) :=
      fun hb => hnb ⟨off, v, c, hins, hb⟩
    cases hcomp : f.compute_ins_offset k off with
    | error e => exact absurd ((compute_err_iff f k off).mp ⟨e, hcomp⟩) hgood
    | ok u =>
      exact ⟨insertLabel u { s with registers := addRegStorage v s.registers },
        by simp [scanStep, hcomp]⟩

theorem scanFrom_err_at (f : Function USize64) (l : List (Instruction USize64)) :
    ∀ (k : Nat) (s : ScanState) (i : Nat) (off : Int) (v : LValue USize64)
      (c : JumpCondition),
      l = f.instructions.drop k →
      f.instructions[i]? = some (.ConditionalJump off v c) →
      (off + (i : Int) < 0 ∨ (f.instructions.length : Int) ≤ off + (i : Int)) →
      k ≤ i →
      (∀ j, k ≤ j → j < i → ¬ condJumpBad f j) →
      scanFrom f k l s = .error (.offsetOutOfRange i) := by
  induction l with
  | nil =>
    intro k s i off v c hdrop hins hbad hki hnb
    have hlen : f.instructions.length ≤ k := by
      have hd := congrArg List.length hdrop
      simp [List.length_drop] at hd
      omega
    have hi : i < f.instructions.length := by
      rcases List.getElem?_eq_some.mp hins with ⟨hw, _⟩
      exact hw
    omega
  | cons ins rest ih =>
    intro k s i off v c hdrop hins hbad hki hnb
    have hinsk : f.instructions[k]? = some ins := by
      have h0 : (f.instructions.drop k)[0]? = some ins := by rw [← hdrop]; simp
      rw [List.getElem?_drop] at h0
      simpa using h0
    have hrest : rest = f.instructions.drop (k + 1) := by
      have hd := congrArg (List.drop 1) hdrop
      simpa [List.drop_drop] using hd
    rcases Nat.eq_or_lt_of_le hki with heq | hlt
    · subst heq
      have hck : ins = .ConditionalJump off v c := Option.some.inj (hinsk.symm.trans hins)
      subst hck
      simp [scanFrom, scanStep_condJump_err f k off v c s hbad]
    · have hnbk : ¬ condJumpBad f k := hnb k le_rfl hlt
      obtain ⟨s2, hs2⟩ := scanStep_ok_of_not_bad f k ins s hinsk hnbk
      simp only [scanFrom, hs2]
      exact ih (k + 1) s2 i off v c hrest hins hbad hlt
        (fun j hj1 hj2 => hnb j (by omega) hj2)

theorem regIndex_lt (l : List Register) (r : Register) (h : r ∈ l) :
    regIndex l r < l.length := by
  induction l with
  | nil => cases h
  | cons x xs ih =>
    simp only [regIndex]
    split_ifs with hx
    · simp
    · have hr : r ∈ xs := by
        rcases List.mem_cons.mp h with h1 | h2
        · exact absurd h1.symm hx
        · exact h2
      have := ih hr
      simp only [List.length_cons]
      omega

theorem regIndex_inj (l : List Register) :
    l.Nodup → ∀ r t, r ∈ l → t ∈ l → r ≠ t → regIndex l r ≠ regIndex l t := by
  induction l with
  | nil => intro _ r t hr; cases hr
  | cons x xs ih =>
    intro hnd r t hr ht hne
    have hx : x ∉ xs := (List.nodup_cons.mp hnd).1
    have hxs : xs.Nodup := (List.nodup_cons.mp hnd).2
    by_cases h1 : x = r <;> by_cases h2 : x = t
    · exact absurd (h1.symm.trans h2) hne
    · simp only [regIndex, if_pos h1, if_neg h2]
      omega
    · simp only [regIndex, if_neg h1, if_pos h2]
      omega
    · simp only [regIndex, if_neg h1, if_neg h2]
      have hrxs : r ∈ xs := by
        rcases List.mem_cons.mp hr with hh | hh
        · exact absurd hh.symm h1
        · exact hh
      have htxs : t ∈ xs := by
        rcases List.mem_cons.mp ht with hh | hh
        · exact absurd hh.symm h2
        · exact hh
      have := ih hxs r t hrxs htxs hne
      omega

theorem physRegs64_getD_ne (i j : Nat) (hi : i < 3) (hj : j < 3) (hne : i ≠ j) :
    available_phys_regs64.getD i .rax ≠ available_phys_regs64.getD j .rax := by
  interval_cases i <;> interval_cases j <;> first | exact absurd rfl hne | decide

/-- C2 (amended): lowering is a pure function of the Function and the
HashMap key enumeration order; when the function references at most one
distinct virtual register the enumeration order is forced, so any two runs
agree. (With two or more distinct registers, different orders give
different outputs — see the counterexample.) -/
theorem C2_theorem (f : Function USize64) (s : ScanState) (o1 o2 : List Register)
    (h : collectScan f = .ok s) (h1 : o1.Perm s.registers) (h2 : o2.Perm s.registers)
    (hlen : s.registers.length ≤ 1) :
    gen_function o1 f = gen_function o2 f := by
  rcases hreg : s.registers with _ | ⟨r, _ | ⟨r2, t⟩⟩
  · rw [hreg] at h1 h2
    rw [h1.eq_nil, h2.eq_nil]
  · rw [hreg] at h1 h2
    rw [List.perm_singleton.mp h1, List.perm_singleton.mp h2]
  · rw [hreg] at hlen
    simp at hlen

/-- C2 witness: on a single-register function the hypotheses hold with the
forced order, and the two lowering runs agree. -/
theorem C2_witness : gen_function [vr1] fOneMove = gen_function [vr1] fOneMove :=
  C2_theorem fOneMove ⟨[vr1], [], 0⟩ [vr1] [vr1] rfl (List.Perm.refl [vr1])
    (List.Perm.refl [vr1]) (by decide)

/-- C3 (amended): pass 1 collects exactly the distinct registers occurring
directly as a `Reg` operand (Move src/dst, binary-operator a/b/dst, Call
return_value, Return value, ConditionalJump value), without duplicates;
registers inside `DerefReg` locations and `LoadParameter` destinations are
not collected. -/
theorem C3_theorem (f : Function USize64) (s : ScanState)
    (h : collectScan f = .ok s) :
    s.registers.Nodup ∧
    (∀ r, r ∈ s.registers ↔ ∃ ins, ins ∈ f.instructions ∧ r ∈ insDirectRegs ins) := by
  constructor
  · exact scanFrom_nodup f f.instructions 0 ⟨[], [], 0⟩ s h List.nodup_nil
  · intro r
    rw [scanFrom_registers f f.instructions 0 ⟨[], [], 0⟩ s h r]
    simp

/-- C3 witness: for the one-instruction function `return r1`, register r1
is collected because it occurs directly in a recorded operand position. -/
theorem C3_witness : vr1 ∈ (ScanState.mk [vr1] [] 0).registers :=
  ((C3_theorem fReturnReg ⟨[vr1], [], 0⟩ rfl).2 vr1).mpr
    ⟨.Return (.Writeable (.Reg vr1)), by simp [fReturnReg],
     by simp [insDirectRegs, rvalDirectRegs, lvalDirectRegs]⟩

/-- C4 (amended): when pass 1's collected distinct registers exceed the
budget of 3, lowering fails with RegisterBudgetExceeded carrying the
needed and available counts; within the budget, the first-seen assignment
never maps two distinct collected registers to the same physical register. -/
theorem C4_theorem (f : Function USize64) (s : ScanState) (order : List Register) :
    (collectScan f = .ok s → 3 < s.registers.length →
      gen_function order f = .error (.registerBudgetExceeded s.registers.length 3)) ∧
    (order.Nodup → order.length ≤ 3 →
      ∀ r t, r ∈ order → t ∈ order → r ≠ t →
        mapRegister64 order r ≠ mapRegister64 order t) := by
  constructor
  · intro h hlen
    simp [gen_function, h, VOLATILE_PHYSICAL_REGISTER_COUNT, hlen]
  · intro hnd hlen r t hr ht hne
    have hir := regIndex_lt order r hr
    have hit := regIndex_lt order t ht
    have hij := regIndex_inj order hnd r t hr ht hne
    exact physRegs64_getD_ne _ _ (by omega) (by omega) hij

/-- C4 witness: four directly-referenced registers fail the budget check
with counts (4, 3); and with two registers in the order, the assigned
physical registers differ. -/
theorem C4_witness :
    gen_function [] fFourDirect = .error (.registerBudgetExceeded 4 3) ∧
    mapRegister64 [vr1, vr2] vr1 ≠ mapRegister64 [vr1, vr2] vr2 :=
  ⟨(C4_theorem fFourDirect ⟨[vr1, vr2, vr3, vr4], [], 0⟩ []).1 rfl (by decide),
   (C4_theorem fFourDirect ⟨[vr1, vr2, vr3, vr4], [], 0⟩ [vr1, vr2]).2
     (by decide) (by decide) vr1 vr2 (by decide) (by decide) (by decide)⟩

/-- C5 (amended): a `ConditionalJump` at index i whose target `i + offset`
falls outside `[0, length)` makes lowering fail with OffsetOutOfRange at
index i, provided no earlier ConditionalJump already failed; plain `Jump`
offsets are never validated (see the counterexample). -/
theorem C5_theorem (f : Function USize64) (order : List Register) (i : Nat)
    (off : Int) (v : LValue USize64) (c : JumpCondition)
    (hins : f.instructions[i]? = some (.ConditionalJump off v c))
    (hbad : off + (i : Int) < 0 ∨ (f.instructions.length : Int) ≤ off + (i : Int))
    (hprev : ∀ j, j < i → ¬ condJumpBad f j) :
    gen_function order f = .error (.offsetOutOfRange i) := by
  have hscan : scanFrom f 0 f.instructions ⟨[], [], 0⟩ = .error (.offsetOutOfRange i) :=
    scanFrom_err_at f f.instructions 0 ⟨[], [], 0⟩ i off v c (by simp) hins hbad
      (by omega) (fun j _ hj => hprev j hj)
  simp [gen_function, collectScan, hscan]

/-- C5 witness: a ConditionalJump with offset −1 at instruction index 0
(target index −1) fails the whole lowering with OffsetOutOfRange at index 0. -/
theorem C5_witness : gen_function [] fBadCondJump = .error (.offsetOutOfRange 0) :=
  C5_theorem fBadCondJump [] 0 (-1) (.Reg vr1) .Zero rfl (Or.inl (by decide))
    (fun j hj => absurd hj (Nat.not_lt_zero j))

end Sacc
